import Mathlib

/-!
A verification development for the `safezone` error-handling library.

Part I embeds the concurrent retry-and-aggregation core (`Retry` and
`Group`) described in the specification.  The implementation of that core
is not among the sources available here (only its test file is), so the
definitions of Part I are modelled from the specification text and say so
in their doc comments.

Part II embeds the `Zone` sequential executor from `safezone.go`
(`Exec`, `Try`, `TryNamed`, `Recover`, `tryRecover`, `RetryN` and the
functional options), translated directly from the Go source.

Shallow-embedding conventions used throughout:
* a Go `error` value that may be `nil` is an `Option`;
* an effectful zero-argument operation that is invoked repeatedly is a
  function `Nat → Option ε` giving the outcome of its k-th invocation
  (0-based), and the embedding returns the number of invocations
  performed, so that claims about call counts are expressed directly;
* elapsed time is a natural number of time units and a cancellation
  signal is the (optional) absolute time at which it fires — the signal
  is level-triggered, so it is "fired" at every instant from that time on;
* the unbounded `for` loop of `Zone.Exec` is embedded with explicit fuel,
  returning `none` when the fuel is exhausted; theorems quantify over any
  sufficient fuel.
-/

namespace Safezone

/-! ### Part I: the retry executor, modelled from the spec -/

/-- Modelled from the spec: the `Result` boundary type of the retry
executor (§6, §7), missing from the available sources.  A retry ends in
`success`, in `retriesExhausted` (carrying the last underlying failure
and the attempt count), or in `retryCancelled`; the two failure kinds are
distinct constructors, hence distinguishable by callers.  `invalidInput`
covers the `maxAttempts ≤ 0` case that §9 leaves unspecified. -/
inductive RetryOutcome (ε : Type) where
  | success : RetryOutcome ε
  | retriesExhausted (cause : ε) (attempts : Nat) : RetryOutcome ε
  | retryCancelled : RetryOutcome ε
  | invalidInput : RetryOutcome ε
deriving Repr, DecidableEq

/-- The observable trace of one `Retry` call: its outcome, how many times
the operation was invoked, and the backoff delays actually slept through
to completion, in order (an aborted wait is not recorded as slept). -/
structure RetryTrace (ε : Type) where
  outcome : RetryOutcome ε
  invocations : Nat
  sleeps : List Nat
deriving Repr, DecidableEq

/-- A level-triggered cancellation signal, `some c` being the absolute
time at which it fires and `none` a signal that never fires.  During a
wait that completes at absolute time `deadline`, cancellation wins the
race iff the signal fires strictly before the wait completes. -/
def cancelFires (tc : Option Nat) (deadline : Nat) : Bool :=
  match tc with
  | none => false
  | some c => decide (c < deadline)

/-- Modelled from the spec: the retry loop of `Retry` (§4.1), missing
from the available sources.  `fuel` is the number of attempts still
allowed (initially `maxAttempts`), `k` the 0-based index of the current
attempt, `t` the current absolute time.  Attempt the operation; on
success return immediately.  On failure, if the budget is consumed
return `retriesExhausted` wrapping the last observed error together with
`maxAttempts`.  Otherwise wait `2 ^ i` time units where `i = k + 1` is
the 0-based index of the next attempt (§4.1: the first retry is `i = 1`),
racing the timer against the cancellation signal: if cancellation fires
strictly before the wait completes, return `retryCancelled` at once. -/
def retryGo (op : Nat → Option ε) (tc : Option Nat) (maxAttempts : Nat) :
    Nat → Nat → Nat → RetryTrace ε
  | 0, _, _ => ⟨.invalidInput, 0, []⟩
  | fuel + 1, k, t =>
    match op k with
    | none => ⟨.success, 1, []⟩
    | some e =>
      if fuel = 0 then
        ⟨.retriesExhausted e maxAttempts, 1, []⟩
      else
        let d := 2 ^ (k + 1)
        if cancelFires tc (t + d) then
          ⟨.retryCancelled, 1, []⟩
        else
          let rest := retryGo op tc maxAttempts fuel (k + 1) (t + d)
          ⟨rest.outcome, rest.invocations + 1, d :: rest.sleeps⟩

/-- Modelled from the spec: `Retry(cancellation, operation, maxAttempts)`
(§4.1, §6), missing from the available sources.  Starts the retry loop at
attempt index 0, time 0, with a budget of `maxAttempts` attempts. -/
def Retry (tc : Option Nat) (op : Nat → Option ε) (maxAttempts : Nat) :
    RetryTrace ε :=
  retryGo op tc maxAttempts maxAttempts 0 0

/-- The backoff delay slept immediately before the attempt with 1-based
number `i`, if any: no delay precedes attempt 1, and the delay before
attempt `i` (`i ≥ 2`) is the `(i-2)`-th recorded sleep. -/
def sleptBefore (tr : RetryTrace ε) (i : Nat) : Option Nat :=
  if i < 2 then none else tr.sleeps.get? (i - 2)

/-! ### Part I (continued): the task group, modelled from the spec -/

/-- Modelled from the spec: the outcome of `TaskGroup.Wait` (§4.2, §7),
missing from the available sources: a success marker, or an
`aggregateFailure` carrying the ordered list of every collected
underlying failure. -/
inductive GroupOutcome (ε : Type) where
  | success : GroupOutcome ε
  | aggregateFailure (failures : List ε) : GroupOutcome ε
deriving Repr, DecidableEq

/-- Modelled from the spec: the shared failure collection of a task group
(§3 GroupState, §4.2), missing from the available sources.  The argument
lists the results of the launched tasks in the order in which they
completed (`none` a success, `some e` a failure); each failing task
appends its failure to the collection under mutual exclusion, so the
collection is exactly the failures in completion order, none dropped. -/
def collectFailures (completed : List (Option ε)) : List ε :=
  completed.filterMap id

/-- Modelled from the spec: `TaskGroup.Wait` (§4.2), missing from the
available sources.  After every launched task has completed, yield
success when the failure collection is empty, and otherwise a single
aggregated failure carrying every collected failure in collection
order. -/
def Wait (completed : List (Option ε)) : GroupOutcome ε :=
  match collectFailures completed with
  | [] => .success
  | e :: rest => .aggregateFailure (e :: rest)

/-- The failure messages joined in order, separated by "; ". -/
def joinSep : List String → String
  | [] => ""
  | [s] => s
  | s :: s' :: rest => s ++ "; " ++ joinSep (s' :: rest)

/-- Modelled from the spec: the combined human-readable rendering of an
aggregated failure (§4.2, §6), missing from the available sources: a
summary with "multiple errors occurred" framing followed by every
collected underlying failure, in collection order. -/
def renderAggregate (msg : ε → String) (failures : List ε) : String :=
  "multiple errors occurred: " ++ joinSep (failures.map msg)

/-! ### Part II: the `Zone` executor, from `safezone.go`

The embedding keeps the Go names.  Errors are `GoErr ε`: either a plain
error value or the `fmt.Errorf("%s:%d: %w", file, line, err)` wrapper
that `wrapErrors` mode adds, which keeps its cause.  The caller location
from `runtime.Caller(1)` is passed in as `file`/`line` arguments.  Debug
printing and plugins are not modelled: the zones of the theorems below
carry no plugins, and `debug` only prints. -/

/-- An error value as handled by a `Zone`: a plain error, or an error
wrapped with a caller location by the error-wrapping mode of
`safezone.go` (`fmt.Errorf("%s:%d: %w", file, line, err)`). -/
inductive GoErr (ε : Type) where
  | base : ε → GoErr ε
  | located : String → Nat → GoErr ε → GoErr ε
deriving Repr, DecidableEq

/-- `z.err = fmt.Errorf("%s:%d: %w", file, line, err)` when `wrapErrors`
is set, `z.err = err` otherwise (`safezone.go` lines 102–107). -/
def wrapIf (wrapErrors : Bool) (file : String) (line : Nat) (e : GoErr ε) :
    GoErr ε :=
  if wrapErrors then .located file line e else e

/-- A `RecoveryStrategy` from `safezone.go`: Go's
`func(error) (bool, error)` may close over mutable state (`RetryN` closes
over its counter `n`), so it is embedded as a step function over an
explicit natural-number state together with the current state.  A call
returns `(recovered, newErr)` and the successor state. -/
structure RecoveryStrategy (ε : Type) where
  state : Nat
  step : GoErr ε → Nat → (Bool × Option (GoErr ε)) × Nat

/-- A `Zone` from `safezone.go` (`err`, `wrapErrors`,
`recoveryStrategies`, `retryCount`; `debug` and `plugins` are not
modelled). -/
structure Zone (ε : Type) where
  err : Option (GoErr ε)
  wrapErrors : Bool
  recoveryStrategies : List (RecoveryStrategy ε)
  retryCount : Nat

/-- One call of a strategy: run its step function on its current state,
yielding the `(recovered, newErr)` pair and the strategy with its state
advanced. -/
def stratCall (s : RecoveryStrategy ε) (e : GoErr ε) :
    (Bool × Option (GoErr ε)) × RecoveryStrategy ε :=
  let r := s.step e s.state
  (r.1, { s with state := r.2 })

/-- The strategy walk of `Zone.tryRecover` (`safezone.go` lines 176–188):
call each strategy in order until one reports `recovered`; that strategy
decides the new `z.err` (its `newErr` if non-nil, else nil — i.e. the
`Option` it returned) and the walk stops, leaving later strategies
uncalled.  Returns whether some strategy recovered, the new error it
chose, and the strategies with the states of the called ones advanced. -/
def tryRecoverList (e : GoErr ε) :
    List (RecoveryStrategy ε) →
      Bool × Option (GoErr ε) × List (RecoveryStrategy ε)
  | [] => (false, none, [])
  | s :: rest =>
    match stratCall s e with
    | ((true, newErr), s') => (true, newErr, s' :: rest)
    | ((false, _), s') =>
      let r := tryRecoverList e rest
      (r.1, r.2.1, s' :: r.2.2)

/-- `Zone.tryRecover` (`safezone.go` lines 176–188): walk the strategies;
when one recovers, set `z.err` to the replacement error it returned
(clearing it when that is nil) and report `true`; otherwise leave `z.err`
untouched and report `false`. -/
def Zone.tryRecover (z : Zone ε) (e : GoErr ε) : Bool × Zone ε :=
  match tryRecoverList e z.recoveryStrategies with
  | (true, newErr, strats) =>
    (true, { z with err := newErr, recoveryStrategies := strats })
  | (false, _, strats) =>
    (false, { z with recoveryStrategies := strats })

/-- The `for` loop of `Zone.Exec` (`safezone.go` lines 79–100), with
explicit fuel bounding the number of iterations (the Go loop may run
forever, e.g. under a strategy that always recovers an always-failing
operation).  `k` counts the invocations of `f` performed so far; the
result is the final zone paired with the total invocation count, or
`none` when the fuel ran out.  Each iteration increments `retryCount`,
invokes `f`, returns on success (resetting `retryCount`), retries when
`tryRecover` reports recovery, and otherwise records the error —
wrapped with the caller location in `wrapErrors` mode — and returns. -/
def execAux (file : String) (line : Nat) (f : Nat → Option (GoErr ε)) :
    Nat → Zone ε → Nat → Option (Zone ε × Nat)
  | 0, _, _ => none
  | fuel + 1, z, k =>
    let z1 := { z with retryCount := z.retryCount + 1 }
    match f k with
    | none => some ({ z1 with retryCount := 0 }, k + 1)
    | some e =>
      match z1.tryRecover e with
      | (true, z2) => execAux file line f fuel z2 (k + 1)
      | (false, z2) =>
        some ({ z2 with err := some (wrapIf z2.wrapErrors file line e) },
          k + 1)

/-- `Zone.Exec` (`safezone.go` lines 73–108): a no-op when the zone
already holds an error, otherwise the retry loop `execAux`. -/
def Zone.Exec (z : Zone ε) (f : Nat → Option (GoErr ε)) (file : String)
    (line : Nat) (fuel : Nat) : Option (Zone ε × Nat) :=
  match z.err with
  | some _ => some (z, 0)
  | none => execAux file line f fuel z 0

/-- `Zone.Try` (`safezone.go` lines 111–142): a no-op returning the zero
value when the zone already holds an error; otherwise invoke `f` once
(its result embedded as the pair `fv`/`fe`), return its value on
success, and on failure return the zero value after either recovering
(which set `z.err` through `tryRecover`) or recording the error.  The
returned `Nat` counts the invocations of `f`. -/
def Zone.Try (z : Zone ε) (fv : α) (fe : Option (GoErr ε)) (file : String)
    (line : Nat) : Zone ε × Option α × Nat :=
  match z.err with
  | some _ => (z, none, 0)
  | none =>
    match fe with
    | none => (z, some fv, 1)
    | some e =>
      match z.tryRecover e with
      | (true, z') => (z', none, 1)
      | (false, z') =>
        ({ z' with err := some (wrapIf z'.wrapErrors file line e) }, none, 1)

/-- `Zone.TryNamed` (`safezone.go` lines 145–164): like `Try` but with no
recovery step. -/
def Zone.TryNamed (z : Zone ε) (fv : α) (fe : Option (GoErr ε))
    (file : String) (line : Nat) : Zone ε × Option α × Nat :=
  match z.err with
  | some _ => (z, none, 0)
  | none =>
    match fe with
    | none => (z, some fv, 1)
    | some e =>
      ({ z with err := some (wrapIf z.wrapErrors file line e) }, none, 1)

/-- `Zone.Recover` (`safezone.go` lines 166–169): clear the current
error. -/
def Zone.Recover (z : Zone ε) : Zone ε :=
  { z with err := none }

/-- `Zone.Error` (`safezone.go` lines 171–174). -/
def Zone.Error (z : Zone ε) : Option (GoErr ε) :=
  z.err

/-- The zone `Run` starts from (`safezone.go` lines 35–42): no error,
error wrapping on, no strategies. -/
def newZone : Zone ε :=
  { err := none, wrapErrors := true, recoveryStrategies := [],
    retryCount := 0 }

/-- `Run`'s option loop (`safezone.go` lines 37–39): apply each option to
the fresh zone in order. -/
def configure (opts : List (Zone ε → Zone ε)) : Zone ε :=
  opts.foldl (fun z o => o z) newZone

/-- `WithErrorWrapping` (`safezone.go` lines 45–49). -/
def WithErrorWrapping (wrap : Bool) (z : Zone ε) : Zone ε :=
  { z with wrapErrors := wrap }

/-- `WithRecovery` (`safezone.go` lines 59–63): append the given
strategies. -/
def WithRecovery (strategies : List (RecoveryStrategy ε)) (z : Zone ε) :
    Zone ε :=
  { z with recoveryStrategies := z.recoveryStrategies ++ strategies }

/-- `RetryN` (`safezone.go` lines 201–209): a strategy closing over a
counter `n`; while the counter is positive it decrements it and reports
the error recovered with a nil replacement, afterwards it reports
`(false, err)`. -/
def RetryN (n : Nat) : RecoveryStrategy ε :=
  { state := n,
    step := fun e s =>
      if 0 < s then ((true, none), s - 1) else ((false, some e), s) }

/-- A concrete zone already holding an error, used to evaluate the
theorems below on closed inputs. -/
def zoneHoldingErr : Zone Nat :=
  { err := some (GoErr.base 0), wrapErrors := true,
    recoveryStrategies := [], retryCount := 0 }

/-! ### Helper lemmas about the retry loop -/

/-- On an operation that fails at every invocation and with a signal that
never fires, the retry loop consumes all its fuel, invoking the operation
once per fuel unit, and ends exhausted on the last error observed. -/
theorem retryGo_allFail (es : Nat → ε) (m : Nat) :
    ∀ fuel k t,
      (retryGo (fun j => some (es j)) none m (fuel + 1) k t).outcome =
          RetryOutcome.retriesExhausted (es (k + fuel)) m ∧
      (retryGo (fun j => some (es j)) none m (fuel + 1) k t).invocations =
          fuel + 1 := by
  intro fuel
  induction fuel with
  | zero => intro k t; simp [retryGo]
  | succ fuel ih =>
    intro k t
    have h := ih (k + 1) (t + 2 ^ (k + 1))
    have hk : k + 1 + fuel = k + (fuel + 1) := by omega
    rw [hk] at h
    simpa [retryGo, cancelFires] using h

/-- If the operation fails on its first `r` invocations (counting from
attempt index `k`) and succeeds on the next one, and at least `r + 1`
attempts remain, the retry loop returns success after exactly `r + 1`
invocations. -/
theorem retryGo_succeedsAfter (op : Nat → Option ε) (m : Nat) :
    ∀ r fuel k t, r < fuel →
      (∀ j, j < r → op (k + j) ≠ none) →
      op (k + r) = none →
      (retryGo op none m fuel k t).outcome = RetryOutcome.success ∧
      (retryGo op none m fuel k t).invocations = r + 1 := by
  intro r
  induction r with
  | zero =>
    intro fuel k t hr _ hs
    obtain ⟨fuel, rfl⟩ : ∃ f, fuel = f + 1 := ⟨fuel - 1, by omega⟩
    simp only [Nat.add_zero] at hs
    simp [retryGo, hs]
  | succ r ih =>
    intro fuel k t hr hf hs
    obtain ⟨fuel, rfl⟩ : ∃ f, fuel = f + 1 := ⟨fuel - 1, by omega⟩
    have hfuel : r < fuel := by omega
    have hk0 : op k ≠ none := by
      have := hf 0 (by omega)
      simpa using this
    obtain ⟨e, he⟩ : ∃ e, op k = some e := by
      cases h : op k with
      | none => exact absurd h hk0
      | some e => exact ⟨e, rfl⟩
    have hf' : ∀ j, j < r → op (k + 1 + j) ≠ none := by
      intro j hj
      have := hf (j + 1) (by omega)
      have hkj : k + (j + 1) = k + 1 + j := by omega
      rwa [hkj] at this
    have hs' : op (k + 1 + r) = none := by
      have hkr : k + (r + 1) = k + 1 + r := by omega
      rwa [hkr] at hs
    have h := ih fuel (k + 1) (t + 2 ^ (k + 1)) hfuel hf' hs'
    have hfz : fuel ≠ 0 := by omega
    simpa [retryGo, cancelFires, he, hfz] using h

/-- C1: For every `maxAttempts ≥ 1` and every operation that fails on
every invocation, `Retry` with a cancellation signal that never fires
invokes the operation exactly `maxAttempts` times and returns a
`retriesExhausted` outcome wrapping the last observed error and carrying
the attempt count `maxAttempts`. -/
theorem retry_allFail_exhausts (m : Nat) (hm : 1 ≤ m) (es : Nat → ε) :
    (Retry none (fun j => some (es j)) m).outcome =
        RetryOutcome.retriesExhausted (es (m - 1)) m ∧
    (Retry none (fun j => some (es j)) m).invocations = m := by
  obtain ⟨fuel, rfl⟩ : ∃ f, m = f + 1 := ⟨m - 1, by omega⟩
  have h := retryGo_allFail es (fuel + 1) fuel 0 0
  simpa [Retry] using h

theorem retry_allFail_exhausts_witness :
    1 ≤ 2 ∧
    ((Retry none (fun j => some ((fun _ => (0 : Nat)) j)) 2).outcome =
        RetryOutcome.retriesExhausted 0 2 ∧
      (Retry none (fun j => some ((fun _ => (0 : Nat)) j)) 2).invocations =
        2) :=
  ⟨by decide, retry_allFail_exhausts 2 (by decide) (fun _ => (0 : Nat))⟩

/-- C4: For every `k` with `1 ≤ k ≤ maxAttempts`, if the operation fails
on its first `k - 1` invocations and succeeds on the `k`-th, `Retry`
invokes the operation exactly `k` times and returns success — never a
`retriesExhausted` outcome and never any further invocation. -/
theorem retry_eventualSuccess (m k : Nat) (h1 : 1 ≤ k) (h2 : k ≤ m)
    (op : Nat → Option ε) (hf : ∀ j, j < k - 1 → op j ≠ none)
    (hs : op (k - 1) = none) :
    (Retry none op m).outcome = RetryOutcome.success ∧
    (Retry none op m).invocations = k := by
  have hf' : ∀ j, j < k - 1 → op (0 + j) ≠ none := by
    intro j hj; simpa using hf j hj
  have hs' : op (0 + (k - 1)) = none := by simpa using hs
  have h := retryGo_succeedsAfter op m (k - 1) m 0 0 (by omega) hf' hs'
  have hk : k - 1 + 1 = k := by omega
  rw [hk] at h
  exact h

theorem retry_eventualSuccess_witness :
    1 ≤ 3 ∧ 3 ≤ 3 ∧
    ((Retry none
          (fun j => if j < 2 then some (0 : Nat) else none) 3).outcome =
        RetryOutcome.success ∧
      (Retry none
          (fun j => if j < 2 then some (0 : Nat) else none) 3).invocations =
        3) :=
  ⟨by decide, by decide,
    retry_eventualSuccess 3 3 (by decide) (by decide)
      (fun j => if j < 2 then some (0 : Nat) else none) (by decide)
      (by decide)⟩

/-- C3: If the cancellation signal fires strictly before the first
backoff wait completes, `Retry` aborts immediately with a
`retryCancelled` outcome — distinguishable from every `retriesExhausted`
outcome — and performs no further attempts after the in-flight one.
The first backoff wait exists when the first attempt fails with budget
remaining (`maxAttempts ≥ 2`) and completes at absolute time
`2 ^ 1 = 2`. -/
theorem retry_cancelDuringFirstWait (m : Nat) (hm : 2 ≤ m)
    (op : Nat → Option ε) (e : ε) (h0 : op 0 = some e)
    (c : Nat) (hc : c < 2) :
    (Retry (some c) op m).outcome = RetryOutcome.retryCancelled ∧
    (Retry (some c) op m).invocations = 1 ∧
    ∀ (e' : ε) (a : Nat),
      (Retry (some c) op m).outcome ≠ RetryOutcome.retriesExhausted e' a := by
  obtain ⟨m, rfl⟩ : ∃ m', m = m' + 2 := ⟨m - 2, by omega⟩
  have h : Retry (some c) op (m + 2) = ⟨.retryCancelled, 1, []⟩ := by
    simp [Retry, retryGo, h0, cancelFires, hc]
  rw [h]
  exact ⟨rfl, rfl, fun e' a => by simp⟩

theorem retry_cancelDuringFirstWait_witness :
    2 ≤ 2 ∧ (fun _ => some (0 : Nat)) 0 = some 0 ∧ 1 < 2 ∧
    ((Retry (some 1) (fun _ => some (0 : Nat)) 2).outcome =
        RetryOutcome.retryCancelled ∧
      (Retry (some 1) (fun _ => some (0 : Nat)) 2).invocations = 1 ∧
      ∀ (e' : Nat) (a : Nat),
        (Retry (some 1) (fun _ => some (0 : Nat)) 2).outcome ≠
          RetryOutcome.retriesExhausted e' a) :=
  ⟨by decide, by decide, by decide,
    retry_cancelDuringFirstWait 2 (by decide) (fun _ => some (0 : Nat)) 0
      (by decide) 1 (by decide)⟩

/-- Every recorded sleep of the retry loop is the power of two determined
by its position: the `j`-th sleep (0-based) of a loop starting at attempt
index `k` lasts `2 ^ (k + 1 + j)` time units. -/
theorem retryGo_sleeps_get (op : Nat → Option ε) (tc : Option Nat)
    (m : Nat) :
    ∀ fuel k t j d,
      (retryGo op tc m fuel k t).sleeps.get? j = some d →
      d = 2 ^ (k + 1 + j) := by
  intro fuel
  induction fuel with
  | zero => intro k t j d h; simp [retryGo] at h
  | succ fuel ih =>
    intro k t j d h
    cases he : op k with
    | none => rw [retryGo, he] at h; simp at h
    | some e =>
      by_cases hfz : fuel = 0
      · rw [retryGo, he] at h; simp [hfz] at h
      · by_cases hcf : cancelFires tc (t + 2 ^ (k + 1)) = true
        · rw [retryGo, he] at h; simp [hfz, hcf] at h
        · rw [retryGo, he] at h
          simp only [hfz, if_false, hcf, Bool.false_eq_true] at h
          cases j with
          | zero =>
            simp only [List.get?_cons_zero, Option.some.injEq] at h
            simpa using h.symm
          | succ j =>
            simp only [List.get?_cons_succ] at h
            have := ih (k + 1) (t + 2 ^ (k + 1)) j d h
            have hk : k + 1 + 1 + j = k + 1 + (j + 1) := by omega
            rwa [hk] at this

/-- C5: For every retry performed by `Retry`, the backoff delay slept
before attempt `i` (attempts numbered from 1; a delay precedes exactly
the attempts `i ≥ 2`) equals `2 ^ (i - 1)` time units — exponential
growth, no jitter, no cap. -/
theorem retry_backoffSchedule (op : Nat → Option ε) (tc : Option Nat)
    (m i : Nat) (_hi : 1 ≤ i) (d : Nat)
    (hd : sleptBefore (Retry tc op m) i = some d) :
    d = 2 ^ (i - 1) := by
  by_cases h2 : i < 2
  · rw [sleptBefore, if_pos h2] at hd
    cases hd
  · rw [sleptBefore, if_neg h2] at hd
    have h := retryGo_sleeps_get op tc m m 0 0 (i - 2) d hd
    have hk : 0 + 1 + (i - 2) = i - 1 := by omega
    rwa [hk] at h

theorem retry_backoffSchedule_witness :
    1 ≤ 2 ∧
    sleptBefore (Retry none (fun _ => some (0 : Nat)) 3) 2 = some 2 ∧
    (2 : Nat) = 2 ^ (2 - 1) :=
  ⟨by decide, by decide,
    retry_backoffSchedule (fun _ => some (0 : Nat)) none 3 2 (by decide) 2
      (by decide)⟩

/-- Whenever at least one attempt is allowed, the retry loop makes at
least one invocation and completes exactly one fewer sleep than it makes
invocations: every completed sleep is followed by a further attempt. -/
theorem retryGo_sleeps_length (op : Nat → Option ε) (tc : Option Nat)
    (m : Nat) :
    ∀ fuel k t, 1 ≤ fuel →
      1 ≤ (retryGo op tc m fuel k t).invocations ∧
      (retryGo op tc m fuel k t).sleeps.length =
        (retryGo op tc m fuel k t).invocations - 1 := by
  intro fuel
  induction fuel with
  | zero => intro k t h; omega
  | succ fuel ih =>
    intro k t _
    cases he : op k with
    | none => simp [retryGo, he]
    | some e =>
      by_cases hfz : fuel = 0
      · simp [retryGo, he, hfz]
      · by_cases hcf : cancelFires tc (t + 2 ^ (k + 1)) = true
        · simp [retryGo, he, hfz, hcf]
        · have h := ih (k + 1) (t + 2 ^ (k + 1)) (by omega)
          rw [retryGo, he]
          simp only [hfz, if_false, hcf, Bool.false_eq_true,
            List.length_cons]
          constructor
          · omega
          · omega

/-- C6: `Retry` never waits after its final attempt: with
`maxAttempts = 1` it performs exactly one attempt with no retries and no
waiting, and in general every completed backoff sleep is followed by a
further attempt, so the number of sleeps is exactly one less than the
number of invocations — the last try is never followed by a sleep. -/
theorem retry_noSleepAfterLast (op : Nat → Option ε) (tc : Option Nat)
    (m : Nat) (hm : 1 ≤ m) :
    (Retry tc op m).sleeps.length = (Retry tc op m).invocations - 1 ∧
    (m = 1 →
      (Retry tc op m).invocations = 1 ∧ (Retry tc op m).sleeps = []) := by
  constructor
  · exact (retryGo_sleeps_length op tc m m 0 0 hm).2
  · rintro rfl
    cases h : op 0 with
    | none => simp [Retry, retryGo, h]
    | some e => simp [Retry, retryGo, h]

theorem retry_noSleepAfterLast_witness :
    1 ≤ 1 ∧
    ((Retry (some 5) (fun _ => some (0 : Nat)) 1).sleeps.length =
        (Retry (some 5) (fun _ => some (0 : Nat)) 1).invocations - 1 ∧
      (1 = 1 →
        (Retry (some 5) (fun _ => some (0 : Nat)) 1).invocations = 1 ∧
        (Retry (some 5) (fun _ => some (0 : Nat)) 1).sleeps = [])) :=
  ⟨by decide,
    retry_noSleepAfterLast (fun _ => some (0 : Nat)) (some 5) 1 (by decide)⟩

/-! ### Theorems about the task group -/

/-- C2: For a task group of `N` launched tasks of which exactly `M`
fail, and for any completion order (any permutation of the launch-order
results), `Wait` returns success iff `M = 0`; otherwise it returns an
aggregated failure collecting exactly `M` failures — a permutation of
the failures of the launched tasks, so every failure from every failing
task appears and none is dropped. -/
theorem group_wait_aggregates (tasks completed : List (Option ε))
    (hperm : completed.Perm tasks) :
    (Wait completed = GroupOutcome.success ↔
      (tasks.filterMap id).length = 0) ∧
    ((tasks.filterMap id).length ≠ 0 →
      Wait completed =
          GroupOutcome.aggregateFailure (collectFailures completed) ∧
      (collectFailures completed).length = (tasks.filterMap id).length ∧
      (collectFailures completed).Perm (tasks.filterMap id) ∧
      ∀ e, e ∈ tasks.filterMap id → e ∈ collectFailures completed) := by
  have hp : (collectFailures completed).Perm (tasks.filterMap id) :=
    hperm.filterMap id
  have hlen := hp.length_eq
  constructor
  · cases hc : collectFailures completed with
    | nil =>
      rw [hc] at hlen
      simp [Wait, hc, ← hlen]
    | cons e rest =>
      rw [hc] at hlen
      simp [Wait, hc, ← hlen]
  · intro hM
    have hne : collectFailures completed ≠ [] := by
      intro hc
      rw [hc] at hlen
      simp at hlen
      omega
    obtain ⟨e, rest, hc⟩ :
        ∃ e rest, collectFailures completed = e :: rest := by
      cases hx : collectFailures completed with
      | nil => exact absurd hx hne
      | cons e rest => exact ⟨e, rest, rfl⟩
    refine ⟨by simp [Wait, hc], hlen, hp, ?_⟩
    intro x hx
    exact hp.mem_iff.mpr hx

theorem group_wait_aggregates_witness :
    ([some 2, none, some 1] :
        List (Option Nat)).Perm [none, some 1, some 2] ∧
    ((Wait [some 2, none, some 1] = GroupOutcome.success ↔
        (([none, some 1, some 2] :
          List (Option Nat)).filterMap id).length = 0) ∧
      ((([none, some 1, some 2] :
          List (Option Nat)).filterMap id).length ≠ 0 →
        Wait [some 2, none, some 1] =
            GroupOutcome.aggregateFailure
              (collectFailures [some 2, none, some 1]) ∧
        (collectFailures [some 2, none, some 1]).length =
          (([none, some 1, some 2] :
            List (Option Nat)).filterMap id).length ∧
        (collectFailures [some 2, none, some 1]).Perm
          (([none, some 1, some 2] : List (Option Nat)).filterMap id) ∧
        ∀ e, e ∈ ([none, some 1, some 2] :
            List (Option Nat)).filterMap id →
          e ∈ collectFailures [some 2, none, some 1])) :=
  ⟨by decide,
    group_wait_aggregates [none, some 1, some 2] [some 2, none, some 1]
      (by decide)⟩

/-- Each member of a list of strings occurs as an infix of their
in-order "; "-separated join. -/
theorem joinSep_mem (s : String) :
    ∀ l : List String, s ∈ l → s.data <:+: (joinSep l).data := by
  intro l
  induction l with
  | nil => intro h; cases h
  | cons a rest ih =>
    intro h
    cases rest with
    | nil =>
      have hs : s = a := by simpa using h
      subst hs
      exact List.infix_rfl
    | cons b rest' =>
      rcases List.mem_cons.mp h with hs | hm
      · subst hs
        rw [joinSep, String.data_append, String.data_append]
        exact List.IsPrefix.isInfix
          ((List.prefix_append s.data _).trans (by rw [List.append_assoc]))
      · have := ih hm
        rw [joinSep, String.data_append]
        exact this.trans ( List.IsSuffix.isInfix (List.suffix_append _ _))

/-- C7: When `Wait` returns after one or more launched tasks failed, the
aggregated failure it yields renders to a text that is the
"multiple errors occurred" summary followed by every collected
underlying failure joined in collection order — so the summary prefixes
the text and every collected failure appears in it; when zero tasks
failed, `Wait` yields success. -/
theorem group_wait_rendering (msg : ε → String)
    (completed : List (Option ε)) :
    (collectFailures completed = [] →
      Wait completed = GroupOutcome.success) ∧
    (∀ fs, Wait completed = GroupOutcome.aggregateFailure fs →
      (renderAggregate msg fs).data =
          "multiple errors occurred: ".data ++ (joinSep (fs.map msg)).data ∧
      "multiple errors occurred: ".data <+: (renderAggregate msg fs).data ∧
      ∀ e, e ∈ fs → (msg e).data <:+: (renderAggregate msg fs).data) := by
  constructor
  · intro hc
    simp [Wait, hc]
  · intro fs _
    refine ⟨by rw [renderAggregate, String.data_append], ?_, ?_⟩
    · rw [renderAggregate, String.data_append]
      exact List.prefix_append _ _
    · intro e he
      have h1 : (msg e).data <:+: (joinSep (fs.map msg)).data :=
        joinSep_mem (msg e) (fs.map msg) (List.mem_map_of_mem msg he)
      rw [renderAggregate, String.data_append]
      exact h1.trans ( List.IsSuffix.isInfix (List.suffix_append _ _))

theorem group_wait_rendering_witness :
    Wait (ε := String) [some "error 1", none, some "error 2"] =
        GroupOutcome.aggregateFailure ["error 1", "error 2"] ∧
    ((renderAggregate id ["error 1", "error 2"]).data =
        "multiple errors occurred: ".data ++
          (joinSep (["error 1", "error 2"].map id)).data ∧
      "multiple errors occurred: ".data <+:
        (renderAggregate id ["error 1", "error 2"]).data ∧
      ∀ e, e ∈ ["error 1", "error 2"] →
        (id e).data <:+: (renderAggregate id ["error 1", "error 2"]).data) :=
  ⟨by decide,
    (group_wait_rendering id [some "error 1", none, some "error 2"]).2
      ["error 1", "error 2"] (by decide)⟩

/-! ### Helper lemmas about the `Zone` executor -/

/-- A terminating run of the `Exec` loop started after `k` prior
invocations performs at least one further invocation. -/
theorem execAux_count (file : String) (line : Nat)
    (f : Nat → Option (GoErr ε)) :
    ∀ fuel (z : Zone ε) k z' m,
      execAux file line f fuel z k = some (z', m) → k + 1 ≤ m := by
  intro fuel
  induction fuel with
  | zero => intro z k z' m h; simp [execAux] at h
  | succ fuel ih =>
    intro z k z' m h
    simp only [execAux] at h
    cases hf : f k with
    | none =>
      simp only [hf] at h
      obtain ⟨h1, h2⟩ := by simpa using h
      omega
    | some e =>
      simp only [hf] at h
      rcases htr :
          Zone.tryRecover { z with retryCount := z.retryCount + 1 } e with
        ⟨b, z2⟩
      rw [htr] at h
      cases b with
      | false =>
        obtain ⟨h1, h2⟩ := by simpa using h
        omega
      | true =>
        simp only at h
        have := ih z2 (k + 1) z' m h
        omega

/-- C8: A `Zone` whose current error is non-nil short-circuits: `Exec`,
`Try` and `TryNamed` do not invoke the function passed to them, leave
the zone (hence its error) unchanged, and `Try`/`TryNamed` return the
zero value; `Recover` resets the error to nil, after which `Exec` and
`Try` invoke their functions again. -/
theorem zone_errShortCircuits (z : Zone ε) (e : GoErr ε)
    (hz : z.err = some e) (f : Nat → Option (GoErr ε)) (fv : α)
    (fe : Option (GoErr ε)) (file : String) (line : Nat) (fuel : Nat) :
    z.Exec f file line fuel = some (z, 0) ∧
    z.Try fv fe file line = (z, none, 0) ∧
    z.TryNamed fv fe file line = (z, none, 0) ∧
    z.Recover.err = none ∧
    (∀ z' k, z.Recover.Exec f file line fuel = some (z', k) → 1 ≤ k) ∧
    (z.Recover.Try fv fe file line).2.2 = 1 := by
  refine ⟨by simp [Zone.Exec, hz], by simp [Zone.Try, hz],
    by simp [Zone.TryNamed, hz], by simp [Zone.Recover], ?_, ?_⟩
  · intro z' k h
    simp only [Zone.Exec, Zone.Recover] at h
    exact execAux_count file line f fuel _ 0 z' k h
  · cases fe with
    | none => simp [Zone.Try, Zone.Recover]
    | some e' =>
      rcases htr : Zone.tryRecover { z with err := none } e' with ⟨b, z2⟩
      cases b <;> simp [Zone.Try, Zone.Recover, htr]

theorem zone_errShortCircuits_witness :
    zoneHoldingErr.err = some (GoErr.base 0) ∧
    (zoneHoldingErr.Exec (fun _ => none) "f" 0 1 =
        some (zoneHoldingErr, 0) ∧
      zoneHoldingErr.Try (7 : Nat) none "f" 0 =
        (zoneHoldingErr, none, 0) ∧
      zoneHoldingErr.TryNamed (7 : Nat) none "f" 0 =
        (zoneHoldingErr, none, 0) ∧
      zoneHoldingErr.Recover.err = none ∧
      (∀ z' k,
        zoneHoldingErr.Recover.Exec (fun _ => none) "f" 0 1 =
            some (z', k) → 1 ≤ k) ∧
      (zoneHoldingErr.Recover.Try (7 : Nat) none "f" 0).2.2 = 1) :=
  ⟨rfl,
    zone_errShortCircuits zoneHoldingErr (GoErr.base 0) rfl
      (fun _ => none) (7 : Nat) none "f" 0 1⟩

/-- Running the `Exec` loop with the single strategy `RetryN n` on an
operation that fails at every invocation: every recovery clears the
error and decrements the counter, so the loop performs `n + 1`
invocations and ends with the loop's last error recorded (wrapped when
`wrapErrors` is set) and the counter at zero. -/
theorem execAux_retryN_fail (file : String) (line : Nat)
    (es : Nat → GoErr ε) (w : Bool) :
    ∀ n fuel k r, n + 1 ≤ fuel →
      execAux file line (fun j => some (es j)) fuel
          { err := none, wrapErrors := w,
            recoveryStrategies := [RetryN n], retryCount := r } k =
        some ({ err := some (wrapIf w file line (es (k + n))),
                wrapErrors := w, recoveryStrategies := [RetryN 0],
                retryCount := r + n + 1 }, k + n + 1) := by
  intro n
  induction n with
  | zero =>
    intro fuel k r hfuel
    obtain ⟨fuel, rfl⟩ : ∃ m, fuel = m + 1 := ⟨fuel - 1, by omega⟩
    simp [execAux, Zone.tryRecover, tryRecoverList, stratCall, RetryN]
  | succ n ih =>
    intro fuel k r hfuel
    obtain ⟨fuel, rfl⟩ : ∃ m, fuel = m + 1 := ⟨fuel - 1, by omega⟩
    have h := ih fuel (k + 1) (r + 1) (by omega)
    rw [show k + 1 + n = k + (n + 1) from by omega] at h
    rw [show r + 1 + n + 1 = r + (n + 1) + 1 from by omega] at h
    simpa [execAux, Zone.tryRecover, tryRecoverList, stratCall, RetryN]
      using h

/-- Running the `Exec` loop with the single strategy `RetryN n` on an
operation that fails on its first `kk ≤ n` invocations (counted from
`k`) and then succeeds: each failure is recovered, and the loop returns
with no error recorded, the retry counter reset, and `kk + 1`
invocations performed. -/
theorem execAux_retryN_succ (file : String) (line : Nat)
    (op : Nat → Option (GoErr ε)) (w : Bool) :
    ∀ kk n fuel k r, kk ≤ n → kk + 1 ≤ fuel →
      (∀ j, j < kk → op (k + j) ≠ none) →
      op (k + kk) = none →
      execAux file line op fuel
          { err := none, wrapErrors := w,
            recoveryStrategies := [RetryN n], retryCount := r } k =
        some ({ err := none, wrapErrors := w,
                recoveryStrategies := [RetryN (n - kk)], retryCount := 0 },
          k + kk + 1) := by
  intro kk
  induction kk with
  | zero =>
    intro n fuel k r _ hfuel _ hs
    obtain ⟨fuel, rfl⟩ : ∃ m, fuel = m + 1 := ⟨fuel - 1, by omega⟩
    simp only [Nat.add_zero] at hs
    simp [execAux, hs]
  | succ kk ih =>
    intro n fuel k r hkn hfuel hf hs
    obtain ⟨fuel, rfl⟩ : ∃ m, fuel = m + 1 := ⟨fuel - 1, by omega⟩
    obtain ⟨n, rfl⟩ : ∃ m, n = m + 1 := ⟨n - 1, by omega⟩
    obtain ⟨e, he⟩ : ∃ e, op k = some e := by
      have h0 := hf 0 (by omega)
      cases hk : op k with
      | none => exact absurd (by simpa using hk) (by simpa using h0)
      | some e => exact ⟨e, rfl⟩
    have hf' : ∀ j, j < kk → op (k + 1 + j) ≠ none := by
      intro j hj
      have := hf (j + 1) (by omega)
      rwa [show k + (j + 1) = k + 1 + j from by omega] at this
    have hs' : op (k + 1 + kk) = none := by
      rwa [show k + (kk + 1) = k + 1 + kk from by omega] at hs
    have h := ih n fuel (k + 1) (r + 1) (by omega) (by omega) hf' hs'
    rw [show k + 1 + kk + 1 = k + (kk + 1) + 1 from by omega] at h
    have hnk : n + 1 - (kk + 1) = n - kk := by omega
    rw [hnk]
    simpa [execAux, he, Zone.tryRecover, tryRecoverList, stratCall, RetryN]
      using h

/-- C9: In a zone configured with `WithRecovery(RetryN(n))` and no other
strategies, `Exec` on an operation that fails on every invocation
invokes it exactly `n + 1` times and records the final failure (wrapped
with the caller location iff error wrapping is configured) as the zone's
error; if the operation first succeeds on invocation index `kk ≤ n`
(i.e. within the first `n + 1` invocations), `Exec` performs `kk + 1`
invocations and returns with the zone's error nil. -/
theorem zone_retryN_exec (n : Nat) (es : Nat → GoErr ε) (w : Bool)
    (file : String) (line : Nat) (fuel : Nat) :
    (n + 1 ≤ fuel →
      Zone.Exec (configure [WithErrorWrapping w, WithRecovery [RetryN n]])
          (fun j => some (es j)) file line fuel =
        some ({ err := some (wrapIf w file line (es n)), wrapErrors := w,
                recoveryStrategies := [RetryN 0],
                retryCount := n + 1 }, n + 1)) ∧
    (∀ kk (op : Nat → Option (GoErr ε)), kk ≤ n → kk + 1 ≤ fuel →
      (∀ j, j < kk → op j ≠ none) → op kk = none →
      Zone.Exec (configure [WithErrorWrapping w, WithRecovery [RetryN n]])
          op file line fuel =
        some ({ err := none, wrapErrors := w,
                recoveryStrategies := [RetryN (n - kk)],
                retryCount := 0 }, kk + 1)) := by
  constructor
  · intro hfuel
    have h := execAux_retryN_fail file line es w n fuel 0 0 hfuel
    simp only [Nat.zero_add] at h
    simpa [Zone.Exec, configure, newZone, WithErrorWrapping, WithRecovery]
      using h
  · intro kk op hkn hfuel hf hs
    have hf' : ∀ j, j < kk → op (0 + j) ≠ none := by
      intro j hj
      simpa using hf j hj
    have hs' : op (0 + kk) = none := by simpa using hs
    have h :=
      execAux_retryN_succ file line op w kk n fuel 0 0 hkn hfuel hf' hs'
    simp only [Nat.zero_add] at h
    simpa [Zone.Exec, configure, newZone, WithErrorWrapping, WithRecovery]
      using h

theorem zone_retryN_exec_witness :
    1 + 1 ≤ 2 ∧
    Zone.Exec
        (configure [WithErrorWrapping false, WithRecovery [RetryN 1]])
        (fun j => some ((fun _ => GoErr.base (0 : Nat)) j)) "f" 0 2 =
      some ({ err := some (wrapIf false "f" 0 (GoErr.base 0)),
              wrapErrors := false, recoveryStrategies := [RetryN 0],
              retryCount := 1 + 1 }, 1 + 1) :=
  ⟨by decide,
    (zone_retryN_exec 1 (fun _ => GoErr.base (0 : Nat)) false "f" 0 2).1
      (by decide)⟩

/-- C10: When a zone's recovery strategy reports an error recovered with
a nil replacement, `Try` invokes its argument exactly once and returns
the zero value with the zone's error left nil — it does not re-invoke
the operation — whereas `Exec` re-enters its loop after the same
recovery outcome, so every terminating `Exec` run invokes the operation
at least twice. -/
theorem zone_recoverNil_try_vs_exec (s : RecoveryStrategy ε)
    (e : GoErr ε) (hs : (s.step e s.state).1 = (true, none)) (w : Bool)
    (r : Nat) (fv : α) (file : String) (line : Nat) :
    Zone.Try { err := none, wrapErrors := w, recoveryStrategies := [s],
               retryCount := r } fv (some e) file line =
      ({ err := none, wrapErrors := w,
         recoveryStrategies := [{ s with state := (s.step e s.state).2 }],
         retryCount := r }, none, 1) ∧
    (∀ (f : Nat → Option (GoErr ε)), f 0 = some e →
      ∀ fuel z' k,
        Zone.Exec { err := none, wrapErrors := w,
                    recoveryStrategies := [s], retryCount := r }
            f file line fuel =
          some (z', k) → 2 ≤ k) := by
  have hsc : stratCall s e =
      ((true, none), { s with state := (s.step e s.state).2 }) := by
    simp [stratCall, hs]
  constructor
  · simp [Zone.Try, Zone.tryRecover, tryRecoverList, hsc]
  · intro f hf fuel z' k h
    cases fuel with
    | zero => simp [Zone.Exec, execAux] at h
    | succ fuel =>
      simp only [Zone.Exec, execAux, hf, Zone.tryRecover, tryRecoverList,
        hsc] at h
      exact execAux_count file line f fuel _ 1 z' k h

theorem zone_recoverNil_try_vs_exec_witness :
    ((RetryN (ε := Nat) 1).step (GoErr.base 0)
        (RetryN (ε := Nat) 1).state).1 = (true, none) ∧
    (Zone.Try { err := none, wrapErrors := false,
                recoveryStrategies := [RetryN 1], retryCount := 0 }
        (7 : Nat) (some (GoErr.base 0)) "f" 0 =
      ({ err := none, wrapErrors := false,
         recoveryStrategies :=
           [{ RetryN (ε := Nat) 1 with
              state := ((RetryN (ε := Nat) 1).step (GoErr.base 0)
                (RetryN (ε := Nat) 1).state).2 }],
         retryCount := 0 }, none, 1) ∧
      (∀ (f : Nat → Option (GoErr Nat)), f 0 = some (GoErr.base 0) →
        ∀ fuel z' k,
          Zone.Exec { err := none, wrapErrors := false,
                      recoveryStrategies := [RetryN 1], retryCount := 0 }
              f "f" 0 fuel =
            some (z', k) → 2 ≤ k)) :=
  ⟨by decide,
    zone_recoverNil_try_vs_exec (RetryN 1) (GoErr.base 0) (by decide)
      false 0 (7 : Nat) "f" 0⟩

/-! ### Sanity checks of the embedding on the reference test scenarios -/

example :
    Retry (ε := Nat) none (fun _ => some 7) 2 =
      ⟨.retriesExhausted 7 2, 2, [2]⟩ := by decide

example :
    Retry (ε := Nat) none (fun j => if j < 2 then some j else none) 5 =
      ⟨.success, 3, [2, 4]⟩ := by decide

example :
    Retry (ε := Nat) (some 1) (fun _ => some 7) 5 =
      ⟨.retryCancelled, 1, []⟩ := by decide

example :
    Wait (ε := String) [none, some "error 1", none, some "error 2"] =
      .aggregateFailure ["error 1", "error 2"] := by decide

example :
    renderAggregate id ["error 1", "error 2"] =
      "multiple errors occurred: error 1; error 2" := by decide

example : Wait (ε := String) [none, none] = .success := by decide

end Safezone
